import Mathlib

/-!
# Shallow embedding of the `personal_ai_stylist` client logic

This development embeds the pure state-transition logic of the React Native
client (`frontend/app/index.tsx` and the larger App variant shipped alongside
the test notes) and proves the frozen specification claims about it.

Modelling conventions:
* JavaScript strings are Lean `String`s; `undefined`/`null` string fields are
  `Option String`, and the JS truthiness test `s || d` on a string becomes a
  match that treats both `none` and `some ""` as falsy.
* Calendar dates are modelled at day granularity as `Int` day numbers
  (days since 1970-01-01, which was a Thursday, so `getDay` is `(d + 4) % 7`
  with JS's Sunday = 0 convention); `Date.setDate` arithmetic collapses to
  integer addition at this granularity.
* Network calls are modelled by their observable effect: a function returns
  the request payload it would send (as `Option`, `none` = no request) and/or
  the next client state, with the fetched response supplied as an argument.
* JS objects used as string-keyed dictionaries are association lists in
  key-insertion order; property lookup walks to the first matching key.
-/

/-- The `WardrobeItem` interface of the client. -/
structure WardrobeItem where
  id : String
  user_id : String
  image_base64 : String
  exact_item_name : Option String
  category : Option String
  color : Option String
  pattern : Option String
  fabric_type : Option String
  style : Option String
  tags : List String
  created_at : String
deriving DecidableEq, Repr

/-- The category key used for grouping: `item.category || 'Other'`
(JS `||`: a missing or empty category falls back to `'Other'`). -/
def keyOf (item : WardrobeItem) : String :=
  match item.category with
  | none => "Other"
  | some c => if c = "" then "Other" else c

/-- One step of `getGroupedWardrobe`'s `forEach` body:
`if (!grouped[category]) grouped[category] = []; grouped[category].push(item)`.
The grouping object is modelled as an association list in key-insertion order. -/
def pushItem : List (String × List WardrobeItem) → String → WardrobeItem →
    List (String × List WardrobeItem)
  | [], k, item => [(k, [item])]
  | (k0, l0) :: rest, k, item =>
      if k0 = k then (k0, l0 ++ [item]) :: rest
      else (k0, l0) :: pushItem rest k item

/-- `getGroupedWardrobe`: fold the wardrobe into a category-keyed grouping. -/
def getGroupedWardrobe (wardrobe : List WardrobeItem) :
    List (String × List WardrobeItem) :=
  wardrobe.foldl (fun grouped item => pushItem grouped (keyOf item) item) []

/-- Property access `grouped[k]` on the grouping object, with `[]` standing
for the absent (`undefined`) case. -/
def lookupGroup : List (String × List WardrobeItem) → String → List WardrobeItem
  | [], _ => []
  | (k0, l0) :: rest, k => if k0 = k then l0 else lookupGroup rest k

/-- Truthiness of `grouped[k]` (groups are nonempty arrays, hence truthy;
only an absent key is falsy). -/
def hasGroup : List (String × List WardrobeItem) → String → Bool
  | [], _ => false
  | (k0, _) :: rest, k => if k0 = k then true else hasGroup rest k

/-- The keys of the grouping object, in insertion order. -/
def groupKeys (grouped : List (String × List WardrobeItem)) : List String :=
  grouped.map Prod.fst

/-- All items of the grouping object, groups concatenated in key order. -/
def joinGroups (grouped : List (String × List WardrobeItem)) : List WardrobeItem :=
  (grouped.map Prod.snd).flatten

theorem lookupGroup_pushItem (g : List (String × List WardrobeItem))
    (k kq : String) (item : WardrobeItem) :
    lookupGroup (pushItem g k item) kq =
      if k = kq then lookupGroup g kq ++ [item] else lookupGroup g kq := by
  induction g with
  | nil =>
      by_cases h : k = kq <;> simp [pushItem, lookupGroup, h]
  | cons hd tl ih =>
      obtain ⟨k0, l0⟩ := hd
      by_cases h0 : k0 = k
      · subst h0
        by_cases hq : k0 = kq <;> simp [pushItem, lookupGroup, hq]
      · simp only [pushItem, if_neg h0]
        by_cases hq : k0 = kq
        · have hk : ¬ k = kq := by
            intro h; exact h0 (hq.trans h.symm)
          simp [lookupGroup, hq, hk]
        · simp [lookupGroup, hq, ih]

theorem groupKeys_pushItem (g : List (String × List WardrobeItem))
    (k : String) (item : WardrobeItem) :
    groupKeys (pushItem g k item) =
      if k ∈ groupKeys g then groupKeys g else groupKeys g ++ [k] := by
  induction g with
  | nil => simp [pushItem, groupKeys]
  | cons hd tl ih =>
      obtain ⟨k0, l0⟩ := hd
      by_cases h0 : k0 = k
      · subst h0
        simp [pushItem, groupKeys]
      · have hne : ¬ k = k0 := fun h => h0 h.symm
        simp only [pushItem, if_neg h0, groupKeys, List.map_cons, List.mem_cons,
          hne, false_or] at ih ⊢
        rw [ih]
        by_cases hmem : k ∈ tl.map Prod.fst <;> simp [hmem]

theorem mem_groupKeys_pushItem (g : List (String × List WardrobeItem))
    (k kq : String) (item : WardrobeItem) :
    kq ∈ groupKeys (pushItem g k item) ↔ kq ∈ groupKeys g ∨ kq = k := by
  rw [groupKeys_pushItem]
  by_cases hmem : k ∈ groupKeys g
  · simp only [if_pos hmem]
    constructor
    · exact fun h => Or.inl h
    · rintro (h | h)
      · exact h
      · exact h ▸ hmem
  · simp [if_neg hmem, List.mem_append]

theorem joinGroups_pushItem (g : List (String × List WardrobeItem))
    (k : String) (item : WardrobeItem) :
    List.Perm (joinGroups (pushItem g k item)) (joinGroups g ++ [item]) := by
  induction g with
  | nil => simp [pushItem, joinGroups]
  | cons hd tl ih =>
      obtain ⟨k0, l0⟩ := hd
      by_cases h0 : k0 = k
      · subst h0
        have hstep : pushItem ((k0, l0) :: tl) k0 item = (k0, l0 ++ [item]) :: tl := by
          simp [pushItem]
        rw [hstep]
        simp only [joinGroups, List.map_cons, List.flatten_cons]
        have h1 : (l0 ++ [item]) ++ ((tl.map Prod.snd).flatten)
            = l0 ++ ([item] ++ (tl.map Prod.snd).flatten) := by
          simp [List.append_assoc]
        rw [h1]
        have h2 := List.Perm.append_left l0
          (@List.perm_append_comm _ [item] ((tl.map Prod.snd).flatten))
        simpa [List.append_assoc] using h2
      · simp only [pushItem, if_neg h0, joinGroups, List.map_cons, List.flatten_cons]
        have h2 := List.Perm.append_left l0 (by simpa [joinGroups] using ih)
        simpa [List.append_assoc] using h2

theorem lookupGroup_foldl (w : List WardrobeItem)
    (g : List (String × List WardrobeItem)) (k : String) :
    lookupGroup (w.foldl (fun grouped item => pushItem grouped (keyOf item) item) g) k =
      lookupGroup g k ++ w.filter (fun item => keyOf item == k) := by
  induction w generalizing g with
  | nil => simp
  | cons item w ih =>
      simp only [List.foldl_cons, ih, List.filter_cons]
      by_cases h : keyOf item = k
      · simp [lookupGroup_pushItem, h]
      · simp [lookupGroup_pushItem, h]

/-- `getGroupedWardrobe`'s group at key `k` is exactly the sublist of wardrobe
items whose category key is `k`, in their original order. -/
theorem lookupGroup_getGroupedWardrobe (w : List WardrobeItem) (k : String) :
    lookupGroup (getGroupedWardrobe w) k = w.filter (fun item => keyOf item == k) := by
  simpa [lookupGroup] using lookupGroup_foldl w [] k

theorem mem_groupKeys_foldl (w : List WardrobeItem)
    (g : List (String × List WardrobeItem)) (k : String) :
    k ∈ groupKeys (w.foldl (fun grouped item => pushItem grouped (keyOf item) item) g) ↔
      k ∈ groupKeys g ∨ ∃ item ∈ w, keyOf item = k := by
  induction w generalizing g with
  | nil => simp
  | cons item w ih =>
      simp only [List.foldl_cons, ih, mem_groupKeys_pushItem, List.mem_cons]
      constructor
      · rintro ((h | h) | ⟨x, hx, hk⟩)
        · exact Or.inl h
        · exact Or.inr ⟨item, Or.inl rfl, h.symm⟩
        · exact Or.inr ⟨x, Or.inr hx, hk⟩
      · rintro (h | ⟨x, hx | hx, hk⟩)
        · exact Or.inl (Or.inl h)
        · exact Or.inl (Or.inr (hx ▸ hk.symm))
        · exact Or.inr ⟨x, hx, hk⟩

theorem mem_groupKeys_getGroupedWardrobe (w : List WardrobeItem) (k : String) :
    k ∈ groupKeys (getGroupedWardrobe w) ↔ ∃ item ∈ w, keyOf item = k := by
  simpa [groupKeys] using mem_groupKeys_foldl w [] k

theorem nodup_groupKeys_foldl (w : List WardrobeItem)
    (g : List (String × List WardrobeItem)) (h : (groupKeys g).Nodup) :
    (groupKeys (w.foldl (fun grouped item => pushItem grouped (keyOf item) item) g)).Nodup := by
  induction w generalizing g with
  | nil => exact h
  | cons item w ih =>
      simp only [List.foldl_cons]
      apply ih
      rw [groupKeys_pushItem]
      by_cases hmem : keyOf item ∈ groupKeys g
      · simpa [hmem] using h
      · simp only [if_neg hmem]
        refine h.append (List.nodup_singleton _) ?_
        intro x hx hx1
        simp only [List.mem_singleton] at hx1
        exact hmem (hx1 ▸ hx)

theorem nodup_groupKeys_getGroupedWardrobe (w : List WardrobeItem) :
    (groupKeys (getGroupedWardrobe w)).Nodup :=
  nodup_groupKeys_foldl w [] (by simp [groupKeys])

theorem joinGroups_foldl (w : List WardrobeItem)
    (g : List (String × List WardrobeItem)) :
    List.Perm
      (joinGroups (w.foldl (fun grouped item => pushItem grouped (keyOf item) item) g))
      (joinGroups g ++ w) := by
  induction w generalizing g with
  | nil => simp
  | cons item w ih =>
      simp only [List.foldl_cons]
      refine (ih _).trans ?_
      have heq : (joinGroups g ++ [item]) ++ w = joinGroups g ++ (item :: w) := by
        simp
      exact (List.Perm.append_right w (joinGroups_pushItem g (keyOf item) item)).trans
        (heq ▸ List.Perm.refl _)

theorem joinGroups_getGroupedWardrobe (w : List WardrobeItem) :
    List.Perm (joinGroups (getGroupedWardrobe w)) w := by
  simpa [joinGroups] using joinGroups_foldl w []

/-- JS `<` on strings, on the underlying character lists: lexicographic
comparison of code units, a shorter strict prefix being smaller. -/
def ltCh : List Char → List Char → Bool
  | _, [] => false
  | [], _ :: _ => true
  | a :: as, b :: bs => if a < b then true else if b < a then false else ltCh as bs

theorem ltCh_irrefl (x : List Char) : ltCh x x = false := by
  induction x with
  | nil => rfl
  | cons a as ih => simp [ltCh, ih]

theorem ltCh_nil_right (x : List Char) : ltCh x [] = false := by
  cases x <;> rfl

theorem ltCh_asymm : ∀ x y : List Char, ltCh x y = true → ltCh y x = false
  | x, [], h => by rw [ltCh_nil_right x] at h; cases h
  | [], _ :: _, _ => ltCh_nil_right _
  | a :: as, b :: bs, h => by
      by_cases hab : a < b
      · have hba : ¬ b < a := lt_asymm hab
        simp [ltCh, hba, hab]
      · by_cases hba : b < a
        · simp [ltCh, hab, hba] at h
        · simp only [ltCh, if_neg hab, if_neg hba] at h
          simp [ltCh, hab, hba, ltCh_asymm as bs h]

theorem ltCh_trans : ∀ x y z : List Char,
    ltCh x y = true → ltCh y z = true → ltCh x z = true
  | _, y, [], _, h2 => by rw [ltCh_nil_right y] at h2; cases h2
  | x, [], _ :: _, h1, _ => by rw [ltCh_nil_right x] at h1; cases h1
  | [], _ :: _, _ :: _, _, _ => rfl
  | a :: as, b :: bs, c :: cs, h1, h2 => by
      by_cases hab : a < b
      · by_cases hbc : b < c
        · simp [ltCh, lt_trans hab hbc]
        · by_cases hcb : c < b
          · simp [ltCh, hbc, hcb] at h2
          · have hbc2 : b = c := le_antisymm (not_lt.mp hcb) (not_lt.mp hbc)
            simp [ltCh, hbc2 ▸ hab]
      · by_cases hba : b < a
        · simp [ltCh, hab, hba] at h1
        · have hab2 : a = b := le_antisymm (not_lt.mp hba) (not_lt.mp hab)
          simp only [ltCh, if_neg hab, if_neg hba] at h1
          by_cases hbc : b < c
          · simp [ltCh, hab2 ▸ hbc]
          · by_cases hcb : c < b
            · simp [ltCh, hbc, hcb] at h2
            · simp only [ltCh, if_neg hbc, if_neg hcb] at h2
              have := ltCh_trans as bs cs h1 h2
              simp [ltCh, hab2 ▸ hbc, hab2 ▸ hcb, this]

theorem eq_of_ltCh_false : ∀ x y : List Char,
    ltCh x y = false → ltCh y x = false → x = y
  | [], [], _, _ => rfl
  | [], _ :: _, h1, _ => by cases h1
  | _ :: _, [], _, h2 => by cases h2
  | a :: as, b :: bs, h1, h2 => by
      by_cases hab : a < b
      · simp [ltCh, hab] at h1
      · by_cases hba : b < a
        · simp [ltCh, hba, lt_asymm hba] at h2
        · have hab2 : a = b := le_antisymm (not_lt.mp hba) (not_lt.mp hab)
          simp only [ltCh, if_neg hab, if_neg hba] at h1
          simp only [ltCh, if_neg hba, if_neg hab] at h2
          rw [hab2, eq_of_ltCh_false as bs h1 h2]

/-- JS string comparison `a < b` as used by the default `Array.sort()`. -/
def jsLtb (a b : String) : Bool := ltCh a.data b.data

/-- The corresponding non-strict order `a ≤ b` (i.e. `!(b < a)`). -/
def jsLe (a b : String) : Prop := jsLtb b a = false

instance : DecidableRel jsLe := fun a b =>
  inferInstanceAs (Decidable (jsLtb b a = false))

instance : IsTotal String jsLe where
  total a b := by
    cases h : ltCh b.data a.data with
    | false => exact Or.inl h
    | true => exact Or.inr (ltCh_asymm _ _ h)

instance : IsTrans String jsLe where
  trans a b c h1 h2 := by
    unfold jsLe jsLtb at *
    cases hca : ltCh c.data a.data with
    | false => rfl
    | true =>
        cases hab : ltCh a.data b.data with
        | true => rw [ltCh_trans _ _ _ hca hab] at h2; cases h2
        | false =>
            have hd : a.data = b.data := eq_of_ltCh_false _ _ hab h1
            rw [← hd, hca] at h2
            cases h2

theorem jsLtb_of_ne_of_not_lt {a b : String} (h1 : jsLtb b a = false)
    (h2 : a ≠ b) : jsLtb a b = true := by
  cases h : jsLtb a b with
  | true => rfl
  | false =>
      exfalso
      apply h2
      have hd : a.data = b.data := eq_of_ltCh_false _ _ h h1
      cases a; cases b
      exact congrArg String.mk hd

/-- One step of building the JS `Set` of categories: insertion-ordered,
ignoring values already present. -/
def addCat (acc : List String) (c : String) : List String :=
  if c ∈ acc then acc else acc ++ [c]

/-- The categories in wardrobe order, first occurrence kept
(`Array.from(new Set(...))`). -/
def categoriesInOrder (wardrobe : List WardrobeItem) : List String :=
  wardrobe.foldl (fun acc item => addCat acc (keyOf item)) []

/-- `getAvailableCategories`: the distinct category keys, sorted ascending
by the JS default string order. -/
def getAvailableCategories (wardrobe : List WardrobeItem) : List String :=
  List.insertionSort jsLe (categoriesInOrder wardrobe)

theorem mem_addCat (acc : List String) (c x : String) :
    x ∈ addCat acc c ↔ x ∈ acc ∨ x = c := by
  unfold addCat
  by_cases h : c ∈ acc
  · simp only [if_pos h]
    constructor
    · exact fun hx => Or.inl hx
    · rintro (hx | hx)
      · exact hx
      · exact hx ▸ h
  · simp [if_neg h, List.mem_append]

theorem nodup_addCat (acc : List String) (c : String) (h : acc.Nodup) :
    (addCat acc c).Nodup := by
  unfold addCat
  by_cases hm : c ∈ acc
  · simpa [hm] using h
  · simp only [if_neg hm]
    refine h.append (List.nodup_singleton _) ?_
    intro x hx hx1
    simp only [List.mem_singleton] at hx1
    exact hm (hx1 ▸ hx)

theorem mem_categoriesInOrder_foldl (w : List WardrobeItem) (acc : List String)
    (c : String) :
    c ∈ w.foldl (fun acc item => addCat acc (keyOf item)) acc ↔
      c ∈ acc ∨ ∃ item ∈ w, keyOf item = c := by
  induction w generalizing acc with
  | nil => simp
  | cons item w ih =>
      simp only [List.foldl_cons, ih, mem_addCat, List.mem_cons]
      constructor
      · rintro ((h | h) | ⟨x, hx, hk⟩)
        · exact Or.inl h
        · exact Or.inr ⟨item, Or.inl rfl, h.symm⟩
        · exact Or.inr ⟨x, Or.inr hx, hk⟩
      · rintro (h | ⟨x, hx | hx, hk⟩)
        · exact Or.inl (Or.inl h)
        · exact Or.inl (Or.inr (hx ▸ hk.symm))
        · exact Or.inr ⟨x, hx, hk⟩

theorem mem_categoriesInOrder (w : List WardrobeItem) (c : String) :
    c ∈ categoriesInOrder w ↔ ∃ item ∈ w, keyOf item = c := by
  simpa using mem_categoriesInOrder_foldl w [] c

theorem nodup_categoriesInOrder (w : List WardrobeItem) :
    (categoriesInOrder w).Nodup := by
  have h : ∀ acc : List String, acc.Nodup →
      (w.foldl (fun acc item => addCat acc (keyOf item)) acc).Nodup := by
    induction w with
    | nil => exact fun acc h => h
    | cons item w ih =>
        intro acc h
        exact ih _ (nodup_addCat acc (keyOf item) h)
  exact h [] List.nodup_nil

/-- `getFilteredWardrobe`: either the whole grouping (filter `'all'`) or a
singleton grouping holding only the selected category, when present. -/
def getFilteredWardrobe (wardrobe : List WardrobeItem)
    (selectedCategoryFilter : String) : List (String × List WardrobeItem) :=
  if selectedCategoryFilter = "all" then getGroupedWardrobe wardrobe
  else if hasGroup (getGroupedWardrobe wardrobe) selectedCategoryFilter then
    [(selectedCategoryFilter, lookupGroup (getGroupedWardrobe wardrobe) selectedCategoryFilter)]
  else []

theorem hasGroup_iff_mem_groupKeys (g : List (String × List WardrobeItem))
    (k : String) : hasGroup g k = true ↔ k ∈ groupKeys g := by
  induction g with
  | nil => simp [hasGroup, groupKeys]
  | cons hd tl ih =>
      obtain ⟨k0, l0⟩ := hd
      by_cases h : k0 = k
      · simp [hasGroup, groupKeys, h]
      · have hk : ¬ k = k0 := fun hx => h hx.symm
        simp [hasGroup, groupKeys, h, hk, ih]

/-- JS `Date.prototype.getDay` at day granularity: day-of-week with
Sunday = 0 (1970-01-01, day number 0, was a Thursday). -/
def jsGetDay (d : Int) : Int := (d + 4) % 7

/-- `getWeekDates(weekOffset)`: the 7 dates of the week `weekOffset` weeks
from the current week, starting at its Sunday.  `setDate(getDate() - getDay()
+ weekOffset * 7)` collapses to integer day arithmetic. -/
def getWeekDates (today weekOffset : Int) : List Int :=
  let startOfWeek := today - jsGetDay today + weekOffset * 7
  [startOfWeek, startOfWeek + 1, startOfWeek + 2, startOfWeek + 3,
   startOfWeek + 4, startOfWeek + 5, startOfWeek + 6]

/-- Civil calendar date (year, month, day) of a day number, Gregorian
calendar, days counted from 1970-01-01. -/
def civilFromDays (z : Int) : Int × Int × Int :=
  let z2 := z + 719468
  let era := z2 / 146097
  let doe := z2 - era * 146097
  let yoe := (doe - doe / 1460 + doe / 36524 - doe / 146096) / 365
  let y := yoe + era * 400
  let doy := doe - (365 * yoe + yoe / 4 - yoe / 100)
  let mp := (5 * doy + 2) / 153
  let d := doy - (153 * mp + 2) / 5 + 1
  let m := mp + (if mp < 10 then 3 else -9)
  (y + (if m ≤ 2 then 1 else 0), m, d)

/-- Zero-pad a (nonnegative) numeric component to two digits. -/
def pad2 (n : Int) : String :=
  if n < 10 then "0" ++ toString n else toString n

/-- Zero-pad a (nonnegative) year to four digits. -/
def pad4 (n : Int) : String :=
  if n < 10 then "000" ++ toString n
  else if n < 100 then "00" ++ toString n
  else if n < 1000 then "0" ++ toString n
  else toString n

/-- `formatDate`: `date.toISOString().split('T')[0]`, i.e. the `YYYY-MM-DD`
rendering of the day number. -/
def formatDate (d : Int) : String :=
  let c := civilFromDays d
  pad4 c.1 ++ "-" ++ pad2 c.2.1 ++ "-" ++ pad2 c.2.2

/-- The `start_date`/`end_date` pair that `loadPlannedOutfits` puts in its
planner query: the formatted first and last entries of `getWeekDates`. -/
def loadPlannedOutfitsQuery (today selectedWeek : Int) : String × String :=
  let weekDates := getWeekDates today selectedWeek
  (formatDate (weekDates.getD 0 0), formatDate (weekDates.getD 6 0))

/-- The `items` object of a planned-outfit record: four slots, each a
wardrobe item id or `null`. -/
structure PlannedItems where
  top : Option String
  bottom : Option String
  layering : Option String
  shoes : Option String
deriving DecidableEq, Repr

/-- A planned-outfit record as POSTed to and fetched from
`/api/planner/outfit(s)`. -/
structure PlannedOutfit where
  date : String
  occasion : String
  event_name : Option String
  items : PlannedItems
deriving DecidableEq, Repr

/-- A planned outfit as displayed: the slot ids replaced by the resolved
wardrobe items (`{...plannedOutfit, items: outfitItems}`). -/
structure DisplayedOutfit where
  date : String
  occasion : String
  event_name : Option String
  items : List WardrobeItem
deriving DecidableEq, Repr

/-- The `selectedOutfit` state: four slots, each a wardrobe item or `null`. -/
structure SelectedOutfit where
  top : Option WardrobeItem
  bottom : Option WardrobeItem
  layering : Option WardrobeItem
  shoes : Option WardrobeItem
deriving DecidableEq, Repr

/-- The client state that `savePlannedOutfit` reads and resets. -/
structure PlannerState where
  selectedOutfit : SelectedOutfit
  outfitOccasion : String
  outfitEvent : String
  showManualOutfitBuilder : Bool
deriving DecidableEq, Repr

/-- `selectedOutfit.slot?.id || null`: the slot's item id, or `null` when the
slot is empty (or its id is the empty string, falsy under `||`). -/
def idOrNull : Option WardrobeItem → Option String
  | none => none
  | some item => if item.id = "" then none else some item.id

/-- `savePlannedOutfit`: returns the POST body sent to `/api/planner/outfit`
(`none` when the guard `!token || (!top && !bottom)` returns early) together
with the next planner state (reset on success, unchanged otherwise). -/
def savePlannedOutfitStep (token : Option String) (st : PlannerState)
    (selectedOutfitDate : String) (saveSucceeds : Bool) :
    Option PlannedOutfit × PlannerState :=
  if token = none ∨ (st.selectedOutfit.top = none ∧ st.selectedOutfit.bottom = none) then
    (none, st)
  else
    let req : PlannedOutfit :=
      { date := selectedOutfitDate
        occasion := if st.outfitOccasion = "" then "Casual" else st.outfitOccasion
        event_name := if st.outfitEvent = "" then none else some st.outfitEvent
        items :=
          { top := idOrNull st.selectedOutfit.top
            bottom := idOrNull st.selectedOutfit.bottom
            layering := idOrNull st.selectedOutfit.layering
            shoes := idOrNull st.selectedOutfit.shoes } }
    if saveSucceeds then
      (some req,
       { selectedOutfit := ⟨none, none, none, none⟩
         outfitOccasion := ""
         outfitEvent := ""
         showManualOutfitBuilder := false })
    else
      (some req, st)

/-- Resolve one slot reference against the loaded wardrobe:
`if (ref) { const it = wardrobe.find(item => item.id === ref); if (it) push(it) }`,
yielding at most one item (a falsy or unresolvable reference is dropped). -/
def resolveSlot (wardrobe : List WardrobeItem) : Option String → Option WardrobeItem
  | none => none
  | some sid => if sid = "" then none else wardrobe.find? (fun item => item.id == sid)

/-- The displayed items of a planned outfit: the four slots resolved in the
fixed order top, bottom, layering, shoes, unresolved slots dropped. -/
def resolveOutfitItems (wardrobe : List WardrobeItem) (items : PlannedItems) :
    List WardrobeItem :=
  (resolveSlot wardrobe items.top).toList ++ (resolveSlot wardrobe items.bottom).toList ++
  (resolveSlot wardrobe items.layering).toList ++ (resolveSlot wardrobe items.shoes).toList

/-- `{...plannedOutfit, items: outfitItems}`. -/
def toDisplayed (wardrobe : List WardrobeItem) (po : PlannedOutfit) : DisplayedOutfit :=
  { date := po.date
    occasion := po.occasion
    event_name := po.event_name
    items := resolveOutfitItems wardrobe po.items }

/-- `outfitsMap[date] = ...`: set a key of the weekly-outfits object,
overwriting an existing entry for the same date. -/
def setOutfit : List (String × DisplayedOutfit) → String → DisplayedOutfit →
    List (String × DisplayedOutfit)
  | [], k, v => [(k, v)]
  | (k0, v0) :: rest, k, v =>
      if k0 = k then (k0, v) :: rest else (k0, v0) :: setOutfit rest k v

/-- The `weeklyOutfits` object built by `loadPlannedOutfits` from the fetched
`planned_outfits` array. -/
def buildWeeklyOutfits (wardrobe : List WardrobeItem)
    (plannedOutfits : List PlannedOutfit) : List (String × DisplayedOutfit) :=
  plannedOutfits.foldl (fun m po => setOutfit m po.date (toDisplayed wardrobe po)) []

/-- Property access `weeklyOutfits[date]`. -/
def lookupOutfit : List (String × DisplayedOutfit) → String → Option DisplayedOutfit
  | [], _ => none
  | (k0, v0) :: rest, k => if k0 = k then some v0 else lookupOutfit rest k

theorem lookupOutfit_setOutfit (m : List (String × DisplayedOutfit))
    (k kq : String) (v : DisplayedOutfit) :
    lookupOutfit (setOutfit m k v) kq =
      if k = kq then some v else lookupOutfit m kq := by
  induction m with
  | nil =>
      by_cases h : k = kq <;> simp [setOutfit, lookupOutfit, h]
  | cons hd tl ih =>
      obtain ⟨k0, v0⟩ := hd
      by_cases h0 : k0 = k
      · subst h0
        by_cases hq : k0 = kq <;> simp [setOutfit, lookupOutfit, hq]
      · simp only [setOutfit, if_neg h0]
        by_cases hq : k0 = kq
        · have hk : ¬ k = kq := by
            intro h; exact h0 (hq.trans h.symm)
          simp [lookupOutfit, hq, hk]
        · simp [lookupOutfit, hq, ih]

theorem lookupOutfit_foldl (wardrobe : List WardrobeItem)
    (os : List PlannedOutfit) (m : List (String × DisplayedOutfit)) (d : String) :
    lookupOutfit (os.foldl (fun m po => setOutfit m po.date (toDisplayed wardrobe po)) m) d =
      ((os.reverse.find? (fun po => po.date == d)).map (toDisplayed wardrobe)).or
        (lookupOutfit m d) := by
  induction os generalizing m with
  | nil => simp
  | cons po os ih =>
      simp only [List.foldl_cons, ih, List.reverse_cons, List.find?_append]
      cases hfind : os.reverse.find? (fun po => po.date == d) with
      | some q => simp [hfind, Option.or]
      | none =>
          simp only [hfind, Option.map_none, Option.or_none, Option.none_or]
          by_cases h : po.date = d
          · simp [List.find?, h, lookupOutfit_setOutfit, Option.or]
          · have hb : (po.date == d) = false := by simp [h]
            simp [List.find?, hb, h, lookupOutfit_setOutfit, Option.or]

/-- The weekly-outfits object maps each date to the conversion of the last
fetched outfit bearing that date (`none` when there is none). -/
theorem lookupOutfit_buildWeeklyOutfits (wardrobe : List WardrobeItem)
    (os : List PlannedOutfit) (d : String) :
    lookupOutfit (buildWeeklyOutfits wardrobe os) d =
      (os.reverse.find? (fun po => po.date == d)).map (toDisplayed wardrobe) := by
  simpa [buildWeeklyOutfits, lookupOutfit] using lookupOutfit_foldl wardrobe os [] d

/-- The `ChatMessage` interface; `id` is `Option` because
`data.message_ids[i]` can be `undefined` in JS. -/
structure ChatMessage where
  id : Option String
  user_id : String
  message : String
  is_user : Bool
  timestamp : String
  image_base64 : Option String
  isTyping : Option Bool
deriving DecidableEq, Repr

/-- A successful `/api/chat` response body, as the client reads it:
`messages` (the chunk array), `message` (legacy single field),
`message_ids`. -/
structure ChatResponse where
  messages : Option (List String)
  message : String
  message_ids : Option (List String)
deriving DecidableEq, Repr

/-- `data.messages || [data.message]`: the chunk list, falling back to the
single `message` field when the `messages` array is absent. -/
def chunksOf (data : ChatResponse) : List String :=
  match data.messages with
  | some chunks => chunks
  | none => [data.message]

/-- The stylist message appended for chunk `i`
(`id: data.message_ids ? data.message_ids[i] : (Date.now() + i).toString()`). -/
def chunkMessage (data : ChatResponse) (now : Int) (uid timestampIso : String)
    (i : Nat) : ChatMessage :=
  { id := match data.message_ids with
          | some ids => ids[i]?
          | none => some (toString (now + (i : Int)))
    user_id := uid
    message := (chunksOf data).getD i ""
    is_user := false
    timestamp := timestampIso
    image_base64 := none
    isTyping := none }

/-- All stylist messages appended by the chunk loop, in array order. -/
def appendedMessages (data : ChatResponse) (now : Int) (uid timestampIso : String) :
    List ChatMessage :=
  (List.range (chunksOf data).length).map (chunkMessage data now uid timestampIso)

/-- `msg.id.startsWith(p)` (an `undefined` id is never transient in practice;
stored messages always carry string ids). -/
def idStartsWith : Option String → String → Bool
  | some s, p => s.startsWith p
  | none, _ => false

/-- Drop the typing indicator and loading placeholder before appending. -/
def removeTransient (msgs : List ChatMessage) : List ChatMessage :=
  msgs.filter (fun m => !(idStartsWith m.id "typing-") && !(idStartsWith m.id "loading-"))

/-- The chat state after a successful `/api/chat` response: transient
messages removed, then every chunk appended in order. -/
def sendMessageOk (prev : List ChatMessage) (data : ChatResponse) (now : Int)
    (uid timestampIso : String) : List ChatMessage :=
  removeTransient prev ++ appendedMessages data now uid timestampIso

theorem range_map_getD {α : Type} (l : List α) (d : α) :
    (List.range l.length).map (fun i => l.getD i d) = l := by
  induction l with
  | nil => simp
  | cons a l ih =>
      rw [List.length_cons, List.range_succ_eq_map, List.map_cons, List.map_map]
      simp only [List.getD_cons_zero, Function.comp_def, List.getD_cons_succ]
      rw [ih]

/-- The client chat state touched by `handleAppReopenBehavior`. -/
structure ChatClientState where
  chatMessages : List ChatMessage
  chatInput : String
  chatImage : Option String
deriving DecidableEq, Repr

/-- The observable outcome of `handleAppReopenBehavior`: the next chat state,
whether a backend `/api/chat/clear` was requested, and the session timestamp
written back to storage. -/
structure ReopenResult where
  state : ChatClientState
  backendClearRequested : Bool
  storedSessionTime : Option Int
deriving DecidableEq, Repr

/-- `const sessionThreshold = 5 * 60 * 1000`. -/
def sessionThreshold : Int := 5 * 60 * 1000

/-- `!lastSessionTime || (currentTime - parseInt(lastSessionTime)) > sessionThreshold`. -/
def isNewSession (lastSessionTime : Option Int) (currentTime : Int) : Bool :=
  match lastSessionTime with
  | none => true
  | some t => decide (currentTime - t > sessionThreshold)

/-- `handleAppReopenBehavior` (no-exception path): clear chat on a new
session (backend clear only when authenticated), otherwise load the stored
history (`loadChatHistory` returns early without a token); always store the
current time as the new session timestamp. -/
def handleAppReopenBehavior (token : Option String) (lastSessionTime : Option Int)
    (currentTime : Int) (st : ChatClientState) (storedHistory : List ChatMessage) :
    ReopenResult :=
  if isNewSession lastSessionTime currentTime then
    { state := { chatMessages := [], chatInput := "", chatImage := none }
      backendClearRequested := token.isSome
      storedSessionTime := some currentTime }
  else
    { state := if token.isSome then { st with chatMessages := storedHistory } else st
      backendClearRequested := false
      storedSessionTime := some currentTime }

/-- The wardrobe-screen state relevant to outfit-cache invalidation. -/
structure WardrobeScreenState (α : Type) where
  wardrobe : List WardrobeItem
  generatedOutfits : List α
deriving DecidableEq, Repr

/-- `addWardrobeItems`, `response.ok` branch: `loadWardrobe()` refreshes the
wardrobe and `setGeneratedOutfits([])` clears the outfit cache. -/
def addWardrobeItemsSuccess {α : Type} (_st : WardrobeScreenState α)
    (refreshedWardrobe : List WardrobeItem) : WardrobeScreenState α :=
  { wardrobe := refreshedWardrobe, generatedOutfits := [] }

/-- `deleteWardrobeItem`, `response.ok` branch: the optimistic filter stays
and `setGeneratedOutfits([])` clears the outfit cache. -/
def deleteWardrobeItemSuccess {α : Type} (st : WardrobeScreenState α)
    (itemId : String) : WardrobeScreenState α :=
  { wardrobe := st.wardrobe.filter (fun item => !(item.id == itemId))
    generatedOutfits := [] }

/-- `handleItemExtractionPermission`, extraction accepted and `response.ok`:
only `loadWardrobe()` runs; `generatedOutfits` is left untouched. -/
def chatItemExtractionSuccess {α : Type} (st : WardrobeScreenState α)
    (refreshedWardrobe : List WardrobeItem) : WardrobeScreenState α :=
  { wardrobe := refreshedWardrobe, generatedOutfits := st.generatedOutfits }

/-- `handleOutfitExtractionPermission`, extraction accepted and
`response.ok`: only `loadWardrobe()` runs; `generatedOutfits` is left
untouched. -/
def outfitValidationExtractionSuccess {α : Type} (st : WardrobeScreenState α)
    (refreshedWardrobe : List WardrobeItem) : WardrobeScreenState α :=
  { wardrobe := refreshedWardrobe, generatedOutfits := st.generatedOutfits }

theorem resolveSlot_mem (wardrobe : List WardrobeItem) (s : Option String)
    (x : WardrobeItem) (hx : x ∈ (resolveSlot wardrobe s).toList) :
    x ∈ wardrobe ∧ s = some x.id := by
  cases s with
  | none => simp [resolveSlot] at hx
  | some sid =>
      by_cases hsid : sid = ""
      · simp [resolveSlot, hsid] at hx
      · simp only [resolveSlot, if_neg hsid, Option.mem_toList, Option.mem_def] at hx
        refine ⟨List.mem_of_find?_eq_some hx, ?_⟩
        have := List.find?_some hx
        simp only [beq_iff_eq] at this
        rw [this]

theorem resolveSlot_eq_none (wardrobe : List WardrobeItem) (s : Option String)
    (h : ∀ sid, s = some sid → ∀ it ∈ wardrobe, it.id ≠ sid) :
    resolveSlot wardrobe s = none := by
  cases s with
  | none => rfl
  | some sid =>
      by_cases hsid : sid = ""
      · simp [resolveSlot, hsid]
      · simp only [resolveSlot, if_neg hsid]
        rw [List.find?_eq_none]
        intro it hit
        simp only [beq_iff_eq]
        exact h sid rfl it hit

/-- Claim C1 (counterexample): the claim states that after every successful
wardrobe-item POST the client's `generatedOutfits` is `[]`, including the
chat-image extraction flow; but `handleItemExtractionPermission`'s success
branch only refreshes the wardrobe and leaves a nonempty outfit cache in
place. -/
theorem chatExtraction_keeps_generatedOutfits :
    (chatItemExtractionSuccess (WardrobeScreenState.mk ([] : List WardrobeItem)
      ([0] : List Nat)) []).generatedOutfits ≠ [] := by
  decide

/-- Claim C1 (amended): the generated-outfit cache is cleared by the two
flows that do invalidate — `addWardrobeItems` on a successful POST and
`deleteWardrobeItem` on a successful DELETE — while the chat-image and
outfit-validation extraction flows leave `generatedOutfits` unchanged. -/
theorem wardrobeMutation_cache_invalidation {α : Type} (st : WardrobeScreenState α)
    (freshWardrobe : List WardrobeItem) (itemId : String) :
    (addWardrobeItemsSuccess st freshWardrobe).generatedOutfits = [] ∧
    (deleteWardrobeItemSuccess st itemId).generatedOutfits = [] ∧
    (chatItemExtractionSuccess st freshWardrobe).generatedOutfits = st.generatedOutfits ∧
    (outfitValidationExtractionSuccess st freshWardrobe).generatedOutfits = st.generatedOutfits :=
  ⟨rfl, rfl, rfl, rfl⟩

/-- Claim C2: `getWeekDates(w)` returns exactly 7 consecutive days starting
at the Sunday of the week `w` weeks from the current week (and ending on its
Saturday), and `loadPlannedOutfits` queries the planner with `start_date`
and `end_date` equal to the first and last of those days formatted by
`formatDate`. -/
theorem getWeekDates_plannerQuery_spec (today w : Int) (i : Nat) (h : i < 7) :
    (getWeekDates today w).length = 7 ∧
    (getWeekDates today w).getD i 0 = today - jsGetDay today + 7 * w + (i : Int) ∧
    jsGetDay ((getWeekDates today w).getD 0 0) = 0 ∧
    jsGetDay ((getWeekDates today w).getD 6 0) = 6 ∧
    loadPlannedOutfitsQuery today w =
      (formatDate ((getWeekDates today w).getD 0 0),
       formatDate ((getWeekDates today w).getD 6 0)) := by
  refine ⟨rfl, ?_, ?_, ?_, rfl⟩
  · interval_cases i <;> simp [getWeekDates, jsGetDay] <;> ring
  · show (today - (today + 4) % 7 + w * 7 + 4) % 7 = 0
    omega
  · show (today - (today + 4) % 7 + w * 7 + 6 + 4) % 7 = 6
    omega

/-- Claim C2 witness: concrete instance of the day formula (day 20000 is a
Friday; the third day of next week is day 20004). -/
theorem getWeekDates_plannerQuery_witness :
    (getWeekDates 20000 1).getD 2 0 = 20000 - jsGetDay 20000 + 7 * 1 + ((2 : Nat) : Int) :=
  (getWeekDates_plannerQuery_spec 20000 1 2 (by decide)).2.1

/-- Claim C3: `getGroupedWardrobe` partitions the wardrobe by category key
(`category || 'Other'`): the group at each key is exactly the subsequence of
items bearing that key (so each item lands in exactly one group, in original
relative order), keys are distinct, and the groups together are a
permutation of the wardrobe (nothing dropped or duplicated). -/
theorem getGroupedWardrobe_partition (w : List WardrobeItem) :
    (∀ k, lookupGroup (getGroupedWardrobe w) k = w.filter (fun item => keyOf item == k)) ∧
    (groupKeys (getGroupedWardrobe w)).Nodup ∧
    List.Perm (joinGroups (getGroupedWardrobe w)) w :=
  ⟨fun k => lookupGroup_getGroupedWardrobe w k, nodup_groupKeys_getGroupedWardrobe w,
   joinGroups_getGroupedWardrobe w⟩

/-- Claim C4: on a successful chat response the client removes the transient
messages and appends one non-user stylist message per chunk of
`data.messages || [data.message]`, in array order, the ids taken from
`data.message_ids` when present; with no `messages` array, the single
`message` field is the one chunk appended. -/
theorem sendMessage_chunking_spec (prev : List ChatMessage) (data : ChatResponse)
    (now : Int) (uid timestampIso : String) :
    sendMessageOk prev data now uid timestampIso =
      removeTransient prev ++ appendedMessages data now uid timestampIso ∧
    (appendedMessages data now uid timestampIso).map (fun m => m.message) = chunksOf data ∧
    (∀ m ∈ appendedMessages data now uid timestampIso, m.is_user = false) ∧
    (∀ ids, data.message_ids = some ids →
      (appendedMessages data now uid timestampIso).map (fun m => m.id) =
        (List.range (chunksOf data).length).map (fun i => ids[i]?)) ∧
    (data.messages = none → chunksOf data = [data.message]) := by
  refine ⟨rfl, ?_, ?_, ?_, ?_⟩
  · unfold appendedMessages
    rw [List.map_map]
    exact range_map_getD (chunksOf data) ""
  · intro m hm
    unfold appendedMessages at hm
    obtain ⟨i, _, rfl⟩ := List.mem_map.mp hm
    rfl
  · intro ids hids
    unfold appendedMessages
    rw [List.map_map]
    apply List.map_congr_left
    intro i _
    simp [chunkMessage, hids]
  · intro h
    simp [chunksOf, h]

/-- Claim C4 witness: with `messages = ["a", "b"]` and
`message_ids = ["i1", "i2"]` the two appended messages carry exactly those
ids. -/
theorem sendMessage_chunking_witness :
    (appendedMessages ⟨some ["a", "b"], "m", some ["i1", "i2"]⟩ 0 "u" "t").map
        (fun m => m.id) =
      (List.range (chunksOf ⟨some ["a", "b"], "m", some ["i1", "i2"]⟩).length).map
        (fun i => (["i1", "i2"] : List String)[i]?) :=
  (sendMessage_chunking_spec [] ⟨some ["a", "b"], "m", some ["i1", "i2"]⟩ 0 "u" "t").2.2.2.1
    ["i1", "i2"] rfl

/-- Claim C5: the planner is a per-date mapping — `weeklyOutfits` associates
each date with at most one displayed outfit, a later fetched outfit for the
same date overwriting an earlier one; and every POSTed planned outfit
carries the four id-or-null slots, an occasion defaulting to `'Casual'` when
unset, and an optional `event_name`. -/
theorem planner_per_date_mapping (wardrobe : List WardrobeItem)
    (os : List PlannedOutfit) (d : String) (token : Option String)
    (st : PlannerState) (selectedOutfitDate : String) (ok : Bool)
    (po : PlannedOutfit)
    (hreq : (savePlannedOutfitStep token st selectedOutfitDate ok).1 = some po) :
    lookupOutfit (buildWeeklyOutfits wardrobe os) d =
      (os.reverse.find? (fun o => o.date == d)).map (toDisplayed wardrobe) ∧
    po.date = selectedOutfitDate ∧
    po.occasion = (if st.outfitOccasion = "" then "Casual" else st.outfitOccasion) ∧
    po.event_name = (if st.outfitEvent = "" then none else some st.outfitEvent) ∧
    po.items.top = idOrNull st.selectedOutfit.top ∧
    po.items.bottom = idOrNull st.selectedOutfit.bottom ∧
    po.items.layering = idOrNull st.selectedOutfit.layering ∧
    po.items.shoes = idOrNull st.selectedOutfit.shoes := by
  refine ⟨lookupOutfit_buildWeeklyOutfits wardrobe os d, ?_⟩
  unfold savePlannedOutfitStep at hreq
  by_cases hg : token = none ∨ (st.selectedOutfit.top = none ∧ st.selectedOutfit.bottom = none)
  · rw [if_pos hg] at hreq
    cases hreq
  · rw [if_neg hg] at hreq
    have hpo : po =
        { date := selectedOutfitDate
          occasion := if st.outfitOccasion = "" then "Casual" else st.outfitOccasion
          event_name := if st.outfitEvent = "" then none else some st.outfitEvent
          items :=
            { top := idOrNull st.selectedOutfit.top
              bottom := idOrNull st.selectedOutfit.bottom
              layering := idOrNull st.selectedOutfit.layering
              shoes := idOrNull st.selectedOutfit.shoes } } := by
      cases ok <;> simpa using hreq.symm
    subst hpo
    exact ⟨rfl, rfl, rfl, rfl, rfl, rfl, rfl⟩

/-- Claim C5 witness: a concrete save with empty occasion defaults to
`'Casual'`. -/
theorem planner_per_date_mapping_witness :
    (PlannedOutfit.mk "2024-10-04" "Casual" none
        (PlannedItems.mk (some "id1") none none none)).occasion =
      (if ("" : String) = "" then "Casual" else "") :=
  (planner_per_date_mapping [] [] "d" (some "tok")
    (PlannerState.mk
      (SelectedOutfit.mk
        (some (WardrobeItem.mk "id1" "u" "img" none (some "Tops")
          none none none none [] "now"))
        none none none)
      "" "" true)
    "2024-10-04" true
    (PlannedOutfit.mk "2024-10-04" "Casual" none
      (PlannedItems.mk (some "id1") none none none))
    (by decide)).2.2.1

/-- Claim C6: `getFilteredWardrobe` returns the whole grouping for the
`'all'` filter; for any other category it returns exactly that category's
group when present and the empty grouping otherwise — never items of a
different category. -/
theorem getFilteredWardrobe_spec (w : List WardrobeItem) (c : String)
    (hc : c ≠ "all") :
    getFilteredWardrobe w "all" = getGroupedWardrobe w ∧
    getFilteredWardrobe w c =
      (if w.filter (fun item => keyOf item == c) = [] then []
       else [(c, w.filter (fun item => keyOf item == c))]) := by
  constructor
  · simp [getFilteredWardrobe]
  · unfold getFilteredWardrobe
    rw [if_neg hc]
    by_cases hmem : hasGroup (getGroupedWardrobe w) c = true
    · rw [if_pos hmem, lookupGroup_getGroupedWardrobe]
      have hne : w.filter (fun item => keyOf item == c) ≠ [] := by
        obtain ⟨item, hitem, hk⟩ :=
          (mem_groupKeys_getGroupedWardrobe w c).mp
            ((hasGroup_iff_mem_groupKeys _ c).mp hmem)
        intro hnil
        have hmemf : item ∈ w.filter (fun item => keyOf item == c) := by
          simp [List.mem_filter, hitem, hk]
        rw [hnil] at hmemf
        cases hmemf
      rw [if_neg hne]
    · rw [if_neg hmem]
      have hnil : w.filter (fun item => keyOf item == c) = [] := by
        rw [List.filter_eq_nil_iff]
        intro item hitem
        simp only [beq_iff_eq]
        intro hk
        exact hmem ((hasGroup_iff_mem_groupKeys _ c).mpr
          ((mem_groupKeys_getGroupedWardrobe w c).mpr ⟨item, hitem, hk⟩))
      rw [if_pos hnil]

/-- Claim C6 witness: filtering a one-item wardrobe by its own category
yields exactly that singleton grouping. -/
theorem getFilteredWardrobe_witness :
    getFilteredWardrobe
        [WardrobeItem.mk "id1" "u" "img" none (some "Tops") none none none none [] "t"]
        "Tops" =
      (if ([WardrobeItem.mk "id1" "u" "img" none (some "Tops") none none none none [] "t"]
            : List WardrobeItem).filter (fun item => keyOf item == "Tops") = [] then []
       else [("Tops",
         ([WardrobeItem.mk "id1" "u" "img" none (some "Tops") none none none none [] "t"]
           : List WardrobeItem).filter (fun item => keyOf item == "Tops"))]) :=
  (getFilteredWardrobe_spec
    [WardrobeItem.mk "id1" "u" "img" none (some "Tops") none none none none [] "t"]
    "Tops" (by decide)).2

/-- Claim C7: `getAvailableCategories` lists exactly the keys of
`getGroupedWardrobe` (each item contributing `category || 'Other'`), without
duplicates, in strictly ascending JS string order. -/
theorem getAvailableCategories_spec (w : List WardrobeItem) :
    List.Pairwise (fun a b => jsLtb a b = true) (getAvailableCategories w) ∧
    (getAvailableCategories w).Nodup ∧
    (∀ c, c ∈ getAvailableCategories w ↔ c ∈ groupKeys (getGroupedWardrobe w)) := by
  have hperm : List.Perm (getAvailableCategories w) (categoriesInOrder w) :=
    List.perm_insertionSort jsLe _
  have hnd : (getAvailableCategories w).Nodup :=
    hperm.nodup_iff.mpr (nodup_categoriesInOrder w)
  have hsorted : List.Sorted jsLe (getAvailableCategories w) :=
    List.sorted_insertionSort jsLe _
  refine ⟨?_, hnd, ?_⟩
  · exact (List.Pairwise.and hsorted hnd).imp
      (fun hab => jsLtb_of_ne_of_not_lt hab.1 hab.2)
  · intro c
    rw [hperm.mem_iff, mem_categoriesInOrder, mem_groupKeys_getGroupedWardrobe]

/-- Claim C8: when neither a top nor a bottom item is selected,
`savePlannedOutfit` returns early — no request is POSTed and the planner
state is unchanged, regardless of layering and shoes. -/
theorem savePlannedOutfit_requires_top_or_bottom (token : Option String)
    (st : PlannerState) (selectedOutfitDate : String) (ok : Bool)
    (htop : st.selectedOutfit.top = none) (hbot : st.selectedOutfit.bottom = none) :
    savePlannedOutfitStep token st selectedOutfitDate ok = (none, st) := by
  unfold savePlannedOutfitStep
  rw [if_pos (Or.inr ⟨htop, hbot⟩)]

/-- Claim C8 witness: with only layering and shoes selected, nothing is
posted and the state is untouched. -/
theorem savePlannedOutfit_requires_top_or_bottom_witness :
    savePlannedOutfitStep (some "tok")
        (PlannerState.mk
          (SelectedOutfit.mk none none
            (some (WardrobeItem.mk "idL" "u" "img" none (some "Layering")
              none none none none [] "now"))
            (some (WardrobeItem.mk "idS" "u" "img" none (some "Shoes")
              none none none none [] "now")))
          "Party" "ev" true)
        "2024-01-01" true =
      (none,
       PlannerState.mk
        (SelectedOutfit.mk none none
          (some (WardrobeItem.mk "idL" "u" "img" none (some "Layering")
            none none none none [] "now"))
          (some (WardrobeItem.mk "idS" "u" "img" none (some "Shoes")
            none none none none [] "now")))
        "Party" "ev" true) :=
  savePlannedOutfit_requires_top_or_bottom (some "tok") _ "2024-01-01" true rfl rfl

theorem reopen_eval_new (token : Option String) (lastSessionTime : Option Int)
    (currentTime : Int) (st : ChatClientState) (storedHistory : List ChatMessage)
    (h : isNewSession lastSessionTime currentTime = true) :
    handleAppReopenBehavior token lastSessionTime currentTime st storedHistory =
      { state := { chatMessages := [], chatInput := "", chatImage := none }
        backendClearRequested := token.isSome
        storedSessionTime := some currentTime } := by
  unfold handleAppReopenBehavior
  rw [if_pos h]

theorem reopen_eval_old (token : Option String) (lastSessionTime : Option Int)
    (currentTime : Int) (st : ChatClientState) (storedHistory : List ChatMessage)
    (h : isNewSession lastSessionTime currentTime = false) :
    handleAppReopenBehavior token lastSessionTime currentTime st storedHistory =
      { state := if token.isSome then { st with chatMessages := storedHistory } else st
        backendClearRequested := false
        storedSessionTime := some currentTime } := by
  unfold handleAppReopenBehavior
  rw [if_neg (by simp [h])]

/-- Claim C9: on an authenticated app start, `handleAppReopenBehavior`
clears the chat (frontend state emptied, backend clear requested) exactly
when no session timestamp is stored or more than 5 minutes have elapsed;
otherwise it loads the stored history; in both cases it stores the current
time as the new session timestamp. -/
theorem handleAppReopenBehavior_spec (token : Option String)
    (lastSessionTime : Option Int) (currentTime : Int) (st : ChatClientState)
    (storedHistory : List ChatMessage) (htoken : token.isSome = true) :
    (((handleAppReopenBehavior token lastSessionTime currentTime st storedHistory).state.chatMessages = [] ∧
      (handleAppReopenBehavior token lastSessionTime currentTime st storedHistory).state.chatInput = "" ∧
      (handleAppReopenBehavior token lastSessionTime currentTime st storedHistory).state.chatImage = none ∧
      (handleAppReopenBehavior token lastSessionTime currentTime st storedHistory).backendClearRequested = true) ↔
      (lastSessionTime = none ∨
        ∃ t, lastSessionTime = some t ∧ currentTime - t > sessionThreshold)) ∧
    (∀ t, lastSessionTime = some t → currentTime - t ≤ sessionThreshold →
      (handleAppReopenBehavior token lastSessionTime currentTime st storedHistory).state.chatMessages =
        storedHistory) ∧
    (handleAppReopenBehavior token lastSessionTime currentTime st storedHistory).storedSessionTime =
      some currentTime := by
  cases lastSessionTime with
  | none =>
      have hnew : isNewSession none currentTime = true := rfl
      rw [reopen_eval_new token none currentTime st storedHistory hnew]
      refine ⟨?_, ?_, rfl⟩
      · constructor
        · intro _
          exact Or.inl rfl
        · intro _
          exact ⟨rfl, rfl, rfl, htoken⟩
      · intro t ht
        cases ht
  | some t0 =>
      by_cases hgt : currentTime - t0 > sessionThreshold
      · have hnew : isNewSession (some t0) currentTime = true := by
          simp only [isNewSession, decide_eq_true_eq]
          exact hgt
        rw [reopen_eval_new token (some t0) currentTime st storedHistory hnew]
        refine ⟨?_, ?_, rfl⟩
        · constructor
          · intro _
            exact Or.inr ⟨t0, rfl, hgt⟩
          · intro _
            exact ⟨rfl, rfl, rfl, htoken⟩
        · intro t ht hle
          injection ht with ht2
          subst ht2
          exact absurd hgt (not_lt.mpr hle)
      · have hnew : isNewSession (some t0) currentTime = false := by
          simp only [isNewSession, decide_eq_false_iff_not]
          exact hgt
        rw [reopen_eval_old token (some t0) currentTime st storedHistory hnew,
          if_pos htoken]
        refine ⟨?_, ?_, rfl⟩
        · constructor
          · rintro ⟨-, -, -, hfalse⟩
            exact Bool.noConfusion hfalse
          · rintro (h | ⟨t, ht, hgt2⟩)
            · cases h
            · injection ht with ht2
              subst ht2
              exact absurd hgt2 hgt
        · intro t ht hle
          rfl

/-- Claim C9 witness: with no stored timestamp the reopen handler stores the
current time (and, per the other conjuncts, clears the chat). -/
theorem handleAppReopenBehavior_witness :
    (handleAppReopenBehavior (some "tok") none 5 (ChatClientState.mk [] "" none)
      []).storedSessionTime = some 5 :=
  (handleAppReopenBehavior_spec (some "tok") none 5 (ChatClientState.mk [] "" none)
    [] (by decide)).2.2

/-- Claim C10: the planner display resolves each of the four slot references
against the loaded wardrobe in the fixed order top, bottom, layering,
shoes; every displayed item is a wardrobe item matching a slot id, an
unresolvable reference is silently dropped, and when no reference resolves
the displayed list is empty even if references are stored. -/
theorem loadPlannedOutfits_resolution_spec (wardrobe : List WardrobeItem)
    (items : PlannedItems) :
    resolveOutfitItems wardrobe items =
      (resolveSlot wardrobe items.top).toList ++
      (resolveSlot wardrobe items.bottom).toList ++
      (resolveSlot wardrobe items.layering).toList ++
      (resolveSlot wardrobe items.shoes).toList ∧
    (∀ x ∈ resolveOutfitItems wardrobe items,
      x ∈ wardrobe ∧
        some x.id ∈ [items.top, items.bottom, items.layering, items.shoes]) ∧
    ((∀ sid, some sid ∈ [items.top, items.bottom, items.layering, items.shoes] →
        ∀ it ∈ wardrobe, it.id ≠ sid) →
      resolveOutfitItems wardrobe items = []) := by
  refine ⟨rfl, ?_, ?_⟩
  · intro x hx
    unfold resolveOutfitItems at hx
    simp only [List.mem_append] at hx
    rcases hx with ((hx | hx) | hx) | hx
    · obtain ⟨hw, hs⟩ := resolveSlot_mem wardrobe items.top x hx
      exact ⟨hw, by simp [← hs]⟩
    · obtain ⟨hw, hs⟩ := resolveSlot_mem wardrobe items.bottom x hx
      exact ⟨hw, by simp [← hs]⟩
    · obtain ⟨hw, hs⟩ := resolveSlot_mem wardrobe items.layering x hx
      exact ⟨hw, by simp [← hs]⟩
    · obtain ⟨hw, hs⟩ := resolveSlot_mem wardrobe items.shoes x hx
      exact ⟨hw, by simp [← hs]⟩
  · intro h
    unfold resolveOutfitItems
    rw [resolveSlot_eq_none wardrobe items.top
        (fun sid hs => h sid (by simp [← hs])),
      resolveSlot_eq_none wardrobe items.bottom
        (fun sid hs => h sid (by simp [← hs])),
      resolveSlot_eq_none wardrobe items.layering
        (fun sid hs => h sid (by simp [← hs])),
      resolveSlot_eq_none wardrobe items.shoes
        (fun sid hs => h sid (by simp [← hs]))]
    rfl

/-- Claim C10 witness: stored references that no longer resolve against the
wardrobe produce an empty displayed items list. -/
theorem loadPlannedOutfits_resolution_witness :
    resolveOutfitItems [] (PlannedItems.mk (some "x") none none (some "y")) = [] :=
  (loadPlannedOutfits_resolution_spec [] (PlannedItems.mk (some "x") none none (some "y"))).2.2
    (by
      intro sid hs it hit
      cases hit)
